import Mathlib

/-!
Shallow embedding of the job-queue program (SQLite-backed queue with a pool
of workers, written with the effection structured-concurrency library).

The store is a list of job rows; every SQL statement of the source is
translated as a pure state transition on that list.  SQLite serializes the
transactions of the source (each statement and each `db.transaction` runs
atomically), so a sequential step semantics is the faithful model of the
store: concurrent callers interleave whole operations, never parts of one.
Timestamps are naturals (seconds); `CURRENT_TIMESTAMP` / `datetime('now')`
become an explicit `now : Nat` argument.
-/

namespace JobQueue

/-- Job status enum, from `type JobStatus = "pending" | "running" | "done" | "failed"`. -/
inductive JobStatus where
  | pending
  | running
  | done
  | failed
deriving DecidableEq, Repr

/-- A row of the `jobs` table / the `Job` record of the source.
`args` is kept as a list (the DB stores it JSON-encoded; `JSON.parse` /
`JSON.stringify` round-trip is the identity on it).  Timestamps are `Option Nat`
(nullable DATETIME), outputs `Option String` (nullable TEXT). -/
structure Job where
  id : Nat
  command : String
  args : List String
  status : JobStatus
  started_at : Option Nat
  finished_at : Option Nat
  stdout : Option String
  stderr : Option String
deriving DecidableEq, Repr

/-- The five demo jobs inserted by `seedJobs` (source lines 85-91); SQLite
assigns rowids 1..5 on the empty table, status defaults to `'pending'`,
all other columns NULL. -/
def initialJobs : List Job :=
  [ { id := 1, command := "echo", args := ["Hello, World!"], status := .pending,
      started_at := none, finished_at := none, stdout := none, stderr := none },
    { id := 2, command := "ls", args := ["-l"], status := .pending,
      started_at := none, finished_at := none, stdout := none, stderr := none },
    { id := 3, command := "sleep", args := ["5"], status := .pending,
      started_at := none, finished_at := none, stdout := none, stderr := none },
    { id := 4, command := "date", args := [], status := .pending,
      started_at := none, finished_at := none, stdout := none, stderr := none },
    { id := 5, command := "uptime", args := [], status := .pending,
      started_at := none, finished_at := none, stdout := none, stderr := none } ]

/-- `seedJobs` (source lines 65-96): counts the rows; if the table is
non-empty it returns without touching it, otherwise it inserts the five
demo jobs as `'pending'`. -/
def seedJobs (s : List Job) : List Job :=
  if s.isEmpty then initialJobs else s

/-- The staleness threshold hard-coded in the sweep SQL:
`datetime('now', '-10 seconds')` (source line 132). -/
def staleThreshold : Nat := 10

/-- The stale marker row update of `sweepStaleJobs`:
`SET status = 'failed', stderr = 'Job timed out'` (source line 131).
Note the statement does not touch `finished_at`. -/
def markSwept (j : Job) : Job :=
  { j with status := .failed, stderr := some "Job timed out" }

/-- The WHERE clause of the sweep:
`status = 'running' AND started_at < datetime('now', '-10 seconds')`.
A NULL `started_at` never satisfies the comparison (SQL three-valued logic),
hence the existential over the stored timestamp.  Over integer timestamps
`t < now - 10` is `t + 10 < now`. -/
def isStale (now : Nat) (j : Job) : Bool :=
  j.status = .running &&
    match j.started_at with
    | none => false
    | some t => t + staleThreshold < now

/-- The effect of the sweep UPDATE on one row: rows matching the WHERE
clause get the SET clause applied, all others stay as stored. -/
def sweepRow (now : Nat) (j : Job) : Job :=
  if isStale now j then markSwept j else j

/-- `sweepStaleJobs` (source lines 128-135): one UPDATE statement that fails
every stale running job, leaving every other row untouched. -/
def sweepStaleJobs (now : Nat) (s : List Job) : List Job :=
  s.map (sweepRow now)

/-- The SET clause of the claim UPDATE (source lines 142-145):
`status = 'running', started_at = CURRENT_TIMESTAMP`. -/
def claimRow (now : Nat) (j : Job) : Job :=
  { j with status := .running, started_at := some now }

/-- JavaScript `x || null` on a nullable text column: an empty string is
replaced by null (source lines 165-166). -/
def nullIfEmpty (x : Option String) : Option String :=
  match x with
  | none => none
  | some v => if v = "" then none else some v

/-- The row-to-`Job` conversion applied to the RETURNING row of the claim
(source lines 160-167): `args` is JSON-parsed, timestamps are wrapped, and
`stdout` / `stderr` go through `|| null`. -/
def returnedJob (j : Job) : Job :=
  { j with stdout := nullIfEmpty j.stdout, stderr := nullIfEmpty j.stderr }

/-- The jobs the subquery ranges over: `WHERE STATUS = 'pending'`. -/
def pendingJobs (s : List Job) : List Job :=
  s.filter fun j => j.status = .pending

/-- Minimum of a list of naturals, `none` on the empty list. -/
def minNat? : List Nat → Option Nat
  | [] => none
  | x :: xs =>
    match minNat? xs with
    | none => some x
    | some y => some (if x ≤ y then x else y)

/-- The scalar subquery of the claim
(`SELECT id FROM jobs WHERE STATUS = 'pending' ORDER BY id ASC LIMIT 1`):
the smallest id among the pending rows, NULL when there is none. -/
def minPendingId (s : List Job) : Option Nat :=
  minNat? ((pendingJobs s).map Job.id)

/-- `claimNextJob` (source lines 137-170): inside one transaction, a single
`UPDATE ... WHERE id = (subquery) RETURNING *`.  When the subquery is NULL no
row matches and the statement returns no row (`undefined` in the source);
otherwise the matched row is set running, stamped with the current time, and
the updated row is converted and returned. -/
def claimNextJob (now : Nat) (s : List Job) : Option Job × List Job :=
  match minPendingId s with
  | none => (none, s)
  | some i =>
    (((s.map fun k => if k.id = i then claimRow now k else k).find?
        fun k => k.id = i).map returnedJob,
      s.map fun k => if k.id = i then claimRow now k else k)

/-- The ids of the pending rows, the candidates of the claim subquery. -/
def pendingIds (s : List Job) : List Nat :=
  (pendingJobs s).map Job.id

/-- A sequence of `claimNextJob` calls, one per listed timestamp (the calls
of concurrent workers serialize in this order through SQLite's transaction
lock): returns the list of jobs handed out and the final table. -/
def claimSeq : List Nat → List Job → List Job × List Job
  | [], s => ([], s)
  | t :: ts, s =>
    match claimNextJob t s with
    | (none, s1) => claimSeq ts s1
    | (some j, s1) =>
      let r := claimSeq ts s1
      (j :: r.1, r.2)

/-- The SET clause of `updateJob` (source lines 182-190): writes back
`status`, `finished_at`, `stdout`, `stderr` from the in-memory job onto the
stored row, leaving `id`, `command`, `args`, `started_at` as stored. -/
def writeBack (k job : Job) : Job :=
  { k with status := job.status, finished_at := job.finished_at,
           stdout := job.stdout, stderr := job.stderr }

/-- The effect of the write-back UPDATE on one row: the row with the
matching id receives the SET clause, every other row stays as stored. -/
def updateRow (job k : Job) : Job :=
  if k.id = job.id then writeBack k job else k

/-- `updateJob` (source lines 172-201): one transaction running
`UPDATE jobs SET ... WHERE id = :id`.  An id that matches no row simply
updates zero rows; `.run` reports the change count, which the source
discards, and the function returns `undefined` either way. -/
def updateJob (s : List Job) (job : Job) : List Job :=
  s.map (updateRow job)

/-- `updateJob` with its error channel made explicit: better-sqlite3's `.run`
throws only on database errors, never because the UPDATE matched zero rows,
and the source neither inspects the change count nor throws itself, so the
operation always succeeds. -/
def updateJobE (s : List Job) (job : Job) : Except String (List Job) :=
  .ok (updateJob s job)

/-- Reports whether an update outcome is a failure (for instance a NotFound
condition). -/
def isErrorOutcome (r : Except String (List Job)) : Bool :=
  match r with
  | .error _ => true
  | .ok _ => false

/-! ### Process runner (`spawnJob`, source lines 203-231) -/

/-- The events of the spawned child a handler could listen to. -/
inductive ChildEvent where
  | stdoutData
  | stderrData
  | close
  | error
deriving DecidableEq, Repr

/-- Which child events `spawnJob` registers a handler for (source lines
209-223): data on the two output streams and `close`.  No handler is
attached to the `error` event. -/
def spawnJobListens : ChildEvent → Bool
  | .stdoutData => true
  | .stderrData => true
  | .close => true
  | .error => false

/-- The completed job the `close` handler resolves the action with
(source lines 215-223): `done` exactly when the close code is `0` (`null`
codes, from signal-killed children, land in `failed`), `finished_at` stamped
with the current time, and the accumulated streams stored. -/
def jobFromClose (job : Job) (code : Option Int) (t : Nat) (out err : String) : Job :=
  { job with
      status := if code = some 0 then .done else .failed,
      finished_at := some t,
      stdout := some out,
      stderr := some err }

/-- How a spawned child can end, observed through Node's child events: the
process ran and its streams closed (`close` with an exit code, `null` when
signal-killed), or the spawn itself failed (`error` with a message, no
`close` since the process never exited). -/
inductive ProcOutcome where
  | closed (code : Option Int) (out err : String)
  | spawnError (msg : String)
deriving DecidableEq, Repr

/-- The value the `spawnJob` action resolves with on a given child outcome.
Only the `close` handler calls `resolve`; a spawn failure emits `error`,
which `spawnJob` has no handler for, so no completed job is ever produced
for it (in Node an `error` event with no listener is an uncaught
process-level exception). -/
def spawnJobResolve (job : Job) (t : Nat) : ProcOutcome → Option Job
  | .closed code out err => some (jobFromClose job code t out err)
  | .spawnError _ => none

/-! ### Orchestrator: signals and exit status (`main`, source lines 294-342) -/

/-- The two signals `main` installs handlers for. -/
inductive Sig where
  | SIGINT
  | SIGTERM
deriving DecidableEq, Repr

/-- The `Exit` value each signal handler resolves the main action with
(source lines 306-309). -/
def signalExitStatus : Sig → Nat
  | .SIGINT => 130
  | .SIGTERM => 143

/-- The status resolved on a clean run: the body completes and `exit(0)`
fires (source line 320). -/
def cleanExitStatus : Nat := 0

/-- The status resolved when the body throws an unhandled error
(source line 322): `resolve({ status: 1, error })`. -/
def errorExitStatus : Nat := 1

/-- Whether the main action has been resolved; `main` awaits the action's
first resolution and then calls `process.exit(result.status)`
(source line 341). -/
inductive RunState where
  | running
  | exited (status : Nat)
deriving DecidableEq, Repr

/-- Delivery of a signal to the process: the installed handler calls
`resolve` immediately, and an effection action keeps only its first
resolution, so a signal arriving while the run is live exits it at once
with that signal's status, and any later signal changes nothing. -/
def onSignal : RunState → Sig → RunState
  | .running, sig => .exited (signalExitStatus sig)
  | .exited st, _ => .exited st

/-- Source line 233: `const isShuttingDown = false`.  The flag the worker
loop polls before claiming is a constant; nothing in the program ever sets
it. -/
def isShuttingDown : Bool := false

/-! ### Concrete rows used to instantiate theorems -/

/-- A running job whose `started_at` lies 20 seconds before the sweep time
used below (the stale-job scenario of the spec). -/
def cRunStale : Job :=
  { id := 1, command := "sleep", args := ["5"], status := .running,
    started_at := some 0, finished_at := none, stdout := none, stderr := none }

/-- A stored row a worker is about to write back to. -/
def cRow5 : Job :=
  { id := 7, command := "echo", args := ["hi"], status := .running,
    started_at := some 3, finished_at := none, stdout := none, stderr := none }

/-- The completed in-memory job written back over `cRow5`. -/
def cUpd5 : Job :=
  { id := 7, command := "echo", args := ["hi"], status := .done,
    started_at := some 3, finished_at := some 9, stdout := some "out",
    stderr := some "err" }

/-- A claimed job whose command names no executable. -/
def cJob4 : Job :=
  { id := 3, command := "no-such-executable", args := [], status := .running,
    started_at := some 0, finished_at := none, stdout := none, stderr := none }

/-- The first row `seedJobs` inserts into the empty table. -/
def cSeed1 : Job :=
  { id := 1, command := "echo", args := ["Hello, World!"], status := .pending,
    started_at := none, finished_at := none, stdout := none, stderr := none }

/-- A two-row table with pending jobs listed out of id order, to instantiate
the claim theorem (the claim must pick id 1, not the first row). -/
def cStoreC1 : List Job :=
  [ { id := 2, command := "ls", args := ["-l"], status := .pending,
      started_at := none, finished_at := none, stdout := none, stderr := none },
    { id := 1, command := "echo", args := ["hi"], status := .pending,
      started_at := none, finished_at := none, stdout := none, stderr := none } ]

/-- The row expected in the table after writing `cUpd5` back over `cRow5`:
same identity and `started_at`, updated status, `finished_at` and outputs. -/
def cWritten5 : Job :=
  { id := 7, command := "echo", args := ["hi"], status := .done,
    started_at := some 3, finished_at := some 9, stdout := some "out",
    stderr := some "err" }

/-- The whole-system state the worker pool acts on: the persisted table and
the in-memory working copies the workers currently hold (each obtained from
a claim and not yet written back). -/
structure SysState where
  store : List Job
  inflight : List Job
deriving DecidableEq, Repr

/-- The states reachable by the program's store operations, in the order the
program can issue them: the schema reset yields the empty table; `seedJobs`
and `sweepStaleJobs` act on the table alone; a worker's claim moves the
returned job into its hands (source line 243); a worker finishes a held job
by writing back exactly the record the spawn close handler resolved
(source lines 215-223 and 250-251), releasing it.  Operations of concurrent
workers serialize (SQLite transactions), so every concurrent history is one
of these interleavings. -/
inductive Reachable : SysState → Prop where
  | init : Reachable ⟨[], []⟩
  | seed {s : List Job} {f : List Job} :
      Reachable ⟨s, f⟩ → Reachable ⟨seedJobs s, f⟩
  | sweep {s : List Job} {f : List Job} (now : Nat) :
      Reachable ⟨s, f⟩ → Reachable ⟨sweepStaleJobs now s, f⟩
  | claim {s : List Job} {f : List Job} (now : Nat) (j : Job) (s' : List Job) :
      Reachable ⟨s, f⟩ → claimNextJob now s = (some j, s') →
      Reachable ⟨s', j :: f⟩
  | finish {s : List Job} {f : List Job} (j : Job) (code : Option Int)
      (t : Nat) (out err : String) :
      Reachable ⟨s, f⟩ → j ∈ f →
      Reachable ⟨updateJob s (jobFromClose j code t out err), f.erase j⟩

/-- The per-row timestamp/status coupling of the data model. -/
def rowTimestampsOk (k : Job) : Prop :=
  (k.started_at ≠ none ↔ k.status ≠ .pending) ∧
  (k.finished_at ≠ none → k.status = .done ∨ k.status = .failed)

/-- The inductive invariant: unique ids (PRIMARY KEY), per-row timestamp
coupling, and every held job shadows a store row that is no longer
pending. -/
def Inv (st : SysState) : Prop :=
  (st.store.map Job.id).Nodup ∧
  (∀ k ∈ st.store, rowTimestampsOk k) ∧
  (∀ j ∈ st.inflight, ∃ k ∈ st.store, k.id = j.id ∧ k.status ≠ .pending)

/-- The job the first claim on the seeded table returns at time 0. -/
def c2Claimed : Job :=
  { id := 1, command := "echo", args := ["Hello, World!"], status := .running,
    started_at := some 0, finished_at := none, stdout := none, stderr := none }

/-- The table after seeding the empty store, claiming job 1 at time 0, and
sweeping at time 20. -/
def c2Store : List Job :=
  sweepStaleJobs 20 (claimNextJob 0 (seedJobs [])).2

/-- Job 1 as it stands in `c2Store`: failed by the sweep, `finished_at`
still NULL. -/
def c2Bad : Job :=
  { id := 1, command := "echo", args := ["Hello, World!"], status := .failed,
    started_at := some 0, finished_at := none, stdout := none,
    stderr := some "Job timed out" }

/-! ### Helper lemmas -/

/-- Pairs of `s.zip (s.map f)` relate each element to its image. -/
theorem snd_eq_of_mem_zip_map {α : Type} (f : α → α) (s : List α) :
    ∀ p ∈ s.zip (s.map f), p.2 = f p.1 := by
  induction s with
  | nil => simp
  | cons a as ih =>
    intro p hp
    rw [List.map_cons, List.zip_cons_cons, List.mem_cons] at hp
    rcases hp with h | h
    · rw [h]
    · exact ih p h

/-- A map that fixes every element of the list is the identity on it. -/
theorem map_eq_self_of_fixes {α : Type} (f : α → α) (s : List α)
    (h : ∀ a ∈ s, f a = a) : s.map f = s := by
  induction s with
  | nil => rfl
  | cons a as ih =>
    rw [List.map_cons, h a (by simp), ih (fun b hb => h b (by simp [hb]))]

/-- The boolean WHERE clause of the sweep, as a proposition. -/
theorem isStale_iff (now : Nat) (j : Job) :
    isStale now j = true ↔
      (j.status = .running ∧ ∃ t, j.started_at = some t ∧ t + staleThreshold < now) := by
  unfold isStale
  cases h : j.started_at with
  | none => simp [h]
  | some t => simp [h, Nat.lt_iff_add_one_le]

/-- A swept row is no longer running, so the sweep clause rejects it. -/
theorem isStale_markSwept (now : Nat) (j : Job) :
    isStale now (markSwept j) = false := by
  simp [isStale, markSwept]

/-- `minNat?` is `none` exactly on the empty list. -/
theorem minNat?_eq_none_iff (l : List Nat) : minNat? l = none ↔ l = [] := by
  cases l with
  | nil => simp [minNat?]
  | cons x xs =>
    simp only [minNat?]
    cases h : minNat? xs <;> simp

/-- A value returned by `minNat?` is in the list. -/
theorem minNat?_mem {l : List Nat} {x : Nat} (h : minNat? l = some x) : x ∈ l := by
  induction l generalizing x with
  | nil => simp [minNat?] at h
  | cons a as ih =>
    simp only [minNat?] at h
    cases ha : minNat? as with
    | none => rw [ha] at h; simp at h; simp [h]
    | some y =>
      rw [ha] at h
      simp only [Option.some.injEq] at h
      by_cases hm : a ≤ y
      · rw [if_pos hm] at h
        exact h ▸ List.mem_cons_self a as
      · rw [if_neg hm] at h
        exact List.mem_cons_of_mem a (ih (h ▸ ha))

/-- A value returned by `minNat?` bounds every member from below. -/
theorem minNat?_le {l : List Nat} {x : Nat} (h : minNat? l = some x) :
    ∀ y ∈ l, x ≤ y := by
  induction l generalizing x with
  | nil => simp [minNat?] at h
  | cons a as ih =>
    intro y hy
    simp only [minNat?] at h
    cases ha : minNat? as with
    | none =>
      rw [ha] at h
      simp only [Option.some.injEq] at h
      rcases List.mem_cons.mp hy with h1 | h1
      · exact h ▸ h1 ▸ Nat.le_refl y
      · exact absurd ((minNat?_eq_none_iff as).mp ha ▸ h1) (List.not_mem_nil y)
    | some m =>
      rw [ha] at h
      simp only [Option.some.injEq] at h
      rcases List.mem_cons.mp hy with h1 | h1
      · rw [h1]
        by_cases hm : a ≤ m
        · rw [if_pos hm] at h
          exact Nat.le_of_eq h.symm
        · rw [if_neg hm] at h
          exact h ▸ Nat.le_of_not_le hm
      · by_cases hm : a ≤ m
        · rw [if_pos hm] at h
          exact Nat.le_trans (h ▸ hm) (ih ha y h1)
        · rw [if_neg hm] at h
          exact Nat.le_trans (h ▸ Nat.le_refl m) (ih ha y h1)

/-- Membership in `pendingIds`, unfolded to a row with that id. -/
theorem mem_pendingIds_iff (s : List Job) (x : Nat) :
    x ∈ pendingIds s ↔ ∃ k ∈ s, k.status = .pending ∧ k.id = x := by
  unfold pendingIds pendingJobs
  constructor
  · intro h
    rcases List.mem_map.mp h with ⟨k, hk, hid⟩
    rcases List.mem_filter.mp hk with ⟨hks, hkp⟩
    exact ⟨k, hks, by simpa using hkp, hid⟩
  · rintro ⟨k, hks, hkp, hid⟩
    exact List.mem_map.mpr ⟨k, List.mem_filter.mpr ⟨hks, by simpa using hkp⟩, hid⟩

/-- The claim subquery is NULL exactly when no row is pending. -/
theorem minPendingId_eq_none_iff (s : List Job) :
    minPendingId s = none ↔ ∀ j ∈ s, j.status ≠ .pending := by
  unfold minPendingId
  rw [minNat?_eq_none_iff]
  constructor
  · intro h j hj hp
    have : j.id ∈ pendingIds s := (mem_pendingIds_iff s j.id).mpr ⟨j, hj, hp, rfl⟩
    rw [pendingIds] at this
    rw [h] at this
    exact absurd this (List.not_mem_nil j.id)
  · intro h
    rcases he : (pendingJobs s).map Job.id with _ | ⟨x, xs⟩
    · rfl
    · have : x ∈ pendingIds s := by rw [pendingIds, he]; exact List.mem_cons_self x xs
      rcases (mem_pendingIds_iff s x).mp this with ⟨k, hks, hkp, _⟩
      exact absurd hkp (h k hks)

/-- The claim subquery returns the id of a pending row. -/
theorem minPendingId_some_mem {s : List Job} {i : Nat} (h : minPendingId s = some i) :
    ∃ k ∈ s, k.status = .pending ∧ k.id = i :=
  (mem_pendingIds_iff s i).mp (minNat?_mem h)

/-- The claim subquery returns the smallest pending id. -/
theorem minPendingId_some_le {s : List Job} {i : Nat} (h : minPendingId s = some i) :
    ∀ k ∈ s, k.status = .pending → i ≤ k.id := by
  intro k hk hp
  exact minNat?_le h k.id ((mem_pendingIds_iff s k.id).mpr ⟨k, hk, hp, rfl⟩)

/-- `|| null` leaves any value other than the empty string alone. -/
theorem nullIfEmpty_eq_self {x : Option String} (h : x ≠ some "") :
    nullIfEmpty x = x := by
  cases x with
  | none => rfl
  | some v =>
    have hv : ¬ v = "" := fun hv => h (by rw [hv])
    simp [nullIfEmpty, hv]

/-- If some member satisfies the predicate, `find?` returns a hit. -/
theorem find?_isSome_of_mem {α : Type} {p : α → Bool} {l : List α} {a : α}
    (ha : a ∈ l) (hp : p a = true) : ∃ r, l.find? p = some r := by
  induction l with
  | nil => exact absurd ha (List.not_mem_nil a)
  | cons b bs ih =>
    cases hb : p b with
    | true => exact ⟨b, List.find?_cons_of_pos bs hb⟩
    | false =>
      rcases List.mem_cons.mp ha with h1 | h1
      · rw [h1, hb] at hp; exact absurd hp (by decide)
      · rcases ih h1 with ⟨r, hr⟩
        exact ⟨r, by rw [List.find?_cons_of_neg bs (by simp [hb]), hr]⟩

/-- Mapping an id-preserving row transformation leaves the id column
unchanged. -/
theorem map_ids_of_preserves {g : Job → Job} (hg : ∀ k, (g k).id = k.id)
    (s : List Job) : (s.map g).map Job.id = s.map Job.id := by
  induction s with
  | nil => rfl
  | cons a as ih => simp [hg a, ih]

/-- With pairwise-distinct ids, looking the claimed id up after the claim
UPDATE finds exactly the updated image of the unique row carrying it. -/
theorem find?_map_update {g : Job → Job} (hg : ∀ k, (g k).id = k.id)
    {s : List Job} {i : Nat} {k₀ : Job}
    (hNodup : (s.map Job.id).Nodup) (hmem : k₀ ∈ s) (hid : k₀.id = i) :
    ((s.map fun k => if k.id = i then g k else k).find? fun k => k.id = i) =
      some (g k₀) := by
  induction s with
  | nil => exact absurd hmem (List.not_mem_nil k₀)
  | cons a as ih =>
    rw [List.map_cons, List.nodup_cons] at hNodup
    rw [List.map_cons]
    by_cases ha : a.id = i
    · have hk₀ : k₀ = a := by
        rcases List.mem_cons.mp hmem with h1 | h1
        · exact h1
        · exfalso
          apply hNodup.1
          have hin : k₀.id ∈ as.map Job.id := List.mem_map_of_mem Job.id h1
          rw [hid] at hin
          rw [ha]
          exact hin
      rw [hk₀, if_pos ha]
      exact List.find?_cons_of_pos _ (by simp [hg a, ha])
    · rw [if_neg ha]
      rw [List.find?_cons_of_neg _ (by simp [ha])]
      have h1 : k₀ ∈ as := by
        rcases List.mem_cons.mp hmem with h1 | h1
        · exact absurd (h1 ▸ hid) ha
        · exact h1
      exact ih hNodup.2 h1

/-- A claim that returns a row returns one whose id is a pending id. -/
theorem claimNextJob_some_id {now : Nat} {s : List Job} {j : Job} {s' : List Job}
    (heq : claimNextJob now s = (some j, s')) : j.id ∈ pendingIds s := by
  unfold claimNextJob at heq
  split at heq
  · exact absurd (congrArg Prod.fst heq) (by simp)
  · rename_i i hm
    have h1 := congrArg Prod.fst heq
    simp only [] at h1
    rcases Option.map_eq_some'.mp h1 with ⟨r, hr, hj⟩
    have hri : r.id = i := by simpa using List.find?_some hr
    have hji : j.id = i := by rw [← hj]; exact hri
    rw [hji]
    exact minNat?_mem hm

/-- A claim that returns no row leaves the table unchanged. -/
theorem claimNextJob_none_state {now : Nat} {s s' : List Job}
    (heq : claimNextJob now s = (none, s')) : s' = s := by
  unfold claimNextJob at heq
  split at heq
  · exact (congrArg Prod.snd heq).symm
  · rename_i i hm
    exfalso
    rcases minPendingId_some_mem hm with ⟨k₀, hk₀s, _, hk₀i⟩
    rcases find?_isSome_of_mem (p := fun k => k.id = i)
        (List.mem_map_of_mem (fun k => if k.id = i then claimRow now k else k) hk₀s)
        (by simp [claimRow, hk₀i]) with ⟨r, hr⟩
    have h1 := congrArg Prod.fst heq
    simp only [hr] at h1
    exact Option.noConfusion h1

/-- A claim returns no row exactly when no row is pending. -/
theorem claimNextJob_fst_none_iff (now : Nat) (s : List Job) :
    (claimNextJob now s).1 = none ↔ ∀ j ∈ s, j.status ≠ .pending := by
  cases hm : minPendingId s with
  | none =>
    have h1 : (claimNextJob now s).1 = none := by
      unfold claimNextJob
      rw [hm]
    constructor
    · intro _
      exact (minPendingId_eq_none_iff s).mp hm
    · intro _
      exact h1
  | some i =>
    rcases minPendingId_some_mem hm with ⟨k₀, hk₀s, hk₀p, hk₀i⟩
    rcases find?_isSome_of_mem (p := fun k => k.id = i)
        (List.mem_map_of_mem (fun k => if k.id = i then claimRow now k else k) hk₀s)
        (by simp [claimRow, hk₀i]) with ⟨r, hr⟩
    have h1 : (claimNextJob now s).1 = some (returnedJob r) := by
      unfold claimNextJob
      rw [hm]
      simp [hr]
    constructor
    · intro h
      rw [h1] at h
      exact Option.noConfusion h
    · intro h
      exact absurd hk₀p (h k₀ hk₀s)

/-- Characterization of a successful claim under unique ids: the claimed row
is a minimal-id pending row, it is set running and stamped, and the rest of
the table is untouched. -/
theorem claimNextJob_some_spec {now : Nat} {s : List Job} {j : Job} {s' : List Job}
    (hNodup : (s.map Job.id).Nodup)
    (heq : claimNextJob now s = (some j, s')) :
    ∃ k₀ ∈ s, k₀.status = .pending ∧
      (∀ k' ∈ s, k'.status = .pending → k₀.id ≤ k'.id) ∧
      j = returnedJob (claimRow now k₀) ∧
      s' = s.map fun k => if k.id = k₀.id then claimRow now k else k := by
  unfold claimNextJob at heq
  split at heq
  · exact absurd (congrArg Prod.fst heq) (by simp)
  · rename_i i hm
    rcases minPendingId_some_mem hm with ⟨k₀, hk₀s, hk₀p, hk₀i⟩
    have hfind := find?_map_update (g := claimRow now) (fun k => rfl) hNodup hk₀s hk₀i
    have h1 := congrArg Prod.fst heq
    have h2 : (s.map fun k => if k.id = i then claimRow now k else k) = s' :=
      congrArg Prod.snd heq
    simp only [hfind, Option.map_some', Option.some.injEq] at h1
    refine ⟨k₀, hk₀s, hk₀p, ?_, ?_, ?_⟩
    · intro k' hk' hp'
      rw [hk₀i]
      exact minPendingId_some_le hm k' hk' hp'
    · exact h1.symm
    · rw [hk₀i]
      exact h2.symm

/-- A claim removes its returned id from the pending ids and adds none. -/
theorem pendingIds_claim_subset {now : Nat} {s : List Job} {j : Job} {s' : List Job}
    (heq : claimNextJob now s = (some j, s')) :
    ∀ x ∈ pendingIds s', x ∈ pendingIds s ∧ x ≠ j.id := by
  have hji : ∃ i, j.id = i ∧ minPendingId s = some i ∧
      s' = s.map fun k => if k.id = i then claimRow now k else k := by
    unfold claimNextJob at heq
    split at heq
    · exact absurd (congrArg Prod.fst heq) (by simp)
    · rename_i i hm
      have h1 := congrArg Prod.fst heq
      simp only [] at h1
      rcases Option.map_eq_some'.mp h1 with ⟨r, hr, hj⟩
      have hri : r.id = i := by simpa using List.find?_some hr
      exact ⟨i, by rw [← hj]; exact hri, hm, (congrArg Prod.snd heq).symm⟩
  rcases hji with ⟨i, hji, _, hs'⟩
  intro x hx
  rcases (mem_pendingIds_iff s' x).mp hx with ⟨m, hms, hmp, hmx⟩
  rw [hs'] at hms
  rcases List.mem_map.mp hms with ⟨k, hks, hfk⟩
  by_cases hk : k.id = i
  · rw [if_pos hk] at hfk
    rw [← hfk] at hmp
    exact absurd hmp (by simp [claimRow])
  · rw [if_neg hk] at hfk
    rw [← hfk] at hmx hmp
    constructor
    · exact (mem_pendingIds_iff s x).mpr ⟨k, hks, hmp, hmx⟩
    · rw [← hmx, hji]
      exact hk

/-- The ids stored in the table are untouched by a claim. -/
theorem claimNextJob_ids {now : Nat} {s : List Job} {o : Option Job} {s' : List Job}
    (heq : claimNextJob now s = (o, s')) :
    s'.map Job.id = s.map Job.id := by
  unfold claimNextJob at heq
  split at heq
  · have h2 : s = s' := congrArg Prod.snd heq
    rw [← h2]
  · rename_i i hm
    have h2 : (s.map fun k => if k.id = i then claimRow now k else k) = s' :=
      congrArg Prod.snd heq
    rw [← h2]
    exact map_ids_of_preserves
      (fun k => by by_cases h : k.id = i <;> simp [h, claimRow]) s

/-- Every job handed out by a sequence of claims carries an id that was
pending when the sequence started. -/
theorem claimSeq_mem_pendingIds (ts : List Nat) (s : List Job) :
    ∀ x ∈ (claimSeq ts s).1, x.id ∈ pendingIds s := by
  induction ts generalizing s with
  | nil => intro x hx; exact absurd hx (by simp [claimSeq])
  | cons t ts ih =>
    intro x hx
    simp only [claimSeq] at hx
    rcases hc : claimNextJob t s with ⟨o, s1⟩
    rw [hc] at hx
    cases o with
    | none =>
      have hs := claimNextJob_none_state hc
      rw [hs] at hx
      exact ih s x hx
    | some j =>
      have hx' : x ∈ j :: (claimSeq ts s1).1 := hx
      rcases List.mem_cons.mp hx' with hx1 | hx1
      · rw [hx1]
        exact claimNextJob_some_id hc
      · exact (pendingIds_claim_subset hc x.id (ih s1 x hx1)).1

/-- Ids handed out by a sequence of claims are pairwise distinct. -/
theorem claimSeq_ids_nodup (ts : List Nat) (s : List Job) :
    ((claimSeq ts s).1.map Job.id).Nodup := by
  induction ts generalizing s with
  | nil => simp [claimSeq]
  | cons t ts ih =>
    simp only [claimSeq]
    rcases hc : claimNextJob t s with ⟨o, s1⟩
    cases o with
    | none => exact ih s1
    | some j =>
      show ((j :: (claimSeq ts s1).1).map Job.id).Nodup
      simp only [List.map_cons, List.nodup_cons]
      refine ⟨?_, ih s1⟩
      intro hin
      rcases List.mem_map.mp hin with ⟨x, hx, hxid⟩
      have h1 := pendingIds_claim_subset hc x.id (claimSeq_mem_pendingIds ts s1 x hx)
      exact h1.2 hxid

/-- The sweep preserves row identity. -/
theorem sweepRow_id (now : Nat) (k : Job) : (sweepRow now k).id = k.id := by
  unfold sweepRow
  split <;> rfl

/-- The write-back preserves row identity. -/
theorem updateRow_id (job k : Job) : (updateRow job k).id = k.id := by
  unfold updateRow
  split <;> rfl

/-- With a duplicate-free id column, rows are determined by their id. -/
theorem id_unique {s : List Job} (h : (s.map Job.id).Nodup)
    {a b : Job} (ha : a ∈ s) (hb : b ∈ s) (hid : a.id = b.id) : a = b :=
  List.inj_on_of_nodup_map h ha hb hid

/-- Rows materialized by the close handler are terminal. -/
theorem jobFromClose_status (j : Job) (code : Option Int) (t : Nat)
    (out err : String) :
    (jobFromClose j code t out err).status = .done ∨
      (jobFromClose j code t out err).status = .failed := by
  unfold jobFromClose
  by_cases hc : code = some 0
  · left; simp [hc]
  · right; simp [hc]

/-- The invariant holds in the initial (freshly reset) state. -/
theorem inv_init : Inv ⟨[], []⟩ := by
  refine ⟨by simp, ?_, ?_⟩ <;> intro j hj <;> exact absurd hj (List.not_mem_nil j)

/-- Decidability of the per-row coupling, for concrete tables. -/
instance rowTimestampsOkDec (k : Job) : Decidable (rowTimestampsOk k) := by
  unfold rowTimestampsOk
  infer_instance

/-- Seeding preserves the invariant. -/
theorem inv_seed {s f : List Job} (h : Inv ⟨s, f⟩) : Inv ⟨seedJobs s, f⟩ := by
  cases s with
  | cons a as => exact h
  | nil =>
    refine ⟨?_, ?_, ?_⟩
    · show ((seedJobs []).map Job.id).Nodup
      decide
    · show ∀ k ∈ seedJobs [], rowTimestampsOk k
      decide
    · intro j hj
      rcases h.2.2 j hj with ⟨k, hk, _⟩
      exact absurd hk (List.not_mem_nil k)

/-- The sweep preserves the invariant. -/
theorem inv_sweep {s f : List Job} (now : Nat) (h : Inv ⟨s, f⟩) :
    Inv ⟨sweepStaleJobs now s, f⟩ := by
  obtain ⟨h1, h2, h3⟩ := h
  refine ⟨?_, ?_, ?_⟩
  · show ((s.map (sweepRow now)).map Job.id).Nodup
    rw [map_ids_of_preserves (sweepRow_id now) s]
    exact h1
  · intro m hm
    rcases List.mem_map.mp hm with ⟨k, hk, hfk⟩
    rw [← hfk]
    unfold sweepRow
    by_cases hst : isStale now k = true
    · rw [if_pos hst]
      rcases (isStale_iff now k).mp hst with ⟨hrun, t, hstart, _⟩
      constructor
      · constructor
        · intro _
          intro hp
          exact JobStatus.noConfusion hp
        · intro _
          show k.started_at ≠ none
          rw [hstart]
          exact Option.noConfusion
      · intro _
        right
        rfl
    · rw [if_neg hst]
      exact h2 k hk
  · intro j hj
    rcases h3 j hj with ⟨k, hk, hid, hnp⟩
    refine ⟨sweepRow now k, List.mem_map_of_mem (sweepRow now) hk, ?_, ?_⟩
    · rw [sweepRow_id now k]
      exact hid
    · unfold sweepRow
      by_cases hst : isStale now k = true
      · rw [if_pos hst]
        intro hp
        exact JobStatus.noConfusion hp
      · rw [if_neg hst]
        exact hnp

/-- A successful claim preserves the invariant, with the returned job now
held by its worker. -/
theorem inv_claim {s f : List Job} {now : Nat} {j : Job} {s' : List Job}
    (h : Inv ⟨s, f⟩) (heq : claimNextJob now s = (some j, s')) :
    Inv ⟨s', j :: f⟩ := by
  obtain ⟨h1, h2, h3⟩ := h
  rcases claimNextJob_some_spec h1 heq with ⟨k₀, hk₀s, hk₀p, hmin, hj, hs'⟩
  have hji : j.id = k₀.id := by rw [hj]; rfl
  refine ⟨?_, ?_, ?_⟩
  · rw [claimNextJob_ids heq]
    exact h1
  · intro m hm
    rw [hs'] at hm
    rcases List.mem_map.mp hm with ⟨k, hk, hfk⟩
    rw [← hfk]
    by_cases hki : k.id = k₀.id
    · rw [if_pos hki]
      have hkk : k = k₀ := id_unique h1 hk hk₀s hki
      rw [hkk]
      constructor
      · constructor
        · intro _
          intro hp
          exact JobStatus.noConfusion hp
        · intro _
          show (some now : Option Nat) ≠ none
          exact Option.noConfusion
      · intro hfin
        rcases (h2 k₀ hk₀s).2 hfin with hc | hc <;> rw [hk₀p] at hc <;>
          exact JobStatus.noConfusion hc
    · rw [if_neg hki]
      exact h2 k hk
  · intro j' hj'
    rcases List.mem_cons.mp hj' with hj1 | hj1
    · refine ⟨claimRow now k₀, ?_, ?_, ?_⟩
      · rw [hs']
        have he : (if k₀.id = k₀.id then claimRow now k₀ else k₀) = claimRow now k₀ :=
          if_pos rfl
        rw [← he]
        exact List.mem_map_of_mem (fun k => if k.id = k₀.id then claimRow now k else k) hk₀s
      · rw [hj1, hji]
        rfl
      · intro hp
        exact JobStatus.noConfusion hp
    · rcases h3 j' hj1 with ⟨k, hk, hid, hnp⟩
      by_cases hki : k.id = k₀.id
      · have hkk : k = k₀ := id_unique h1 hk hk₀s hki
        rw [hkk] at hnp
        exact absurd hk₀p hnp
      · refine ⟨k, ?_, hid, hnp⟩
        rw [hs']
        have he : (if k.id = k₀.id then claimRow now k else k) = k := if_neg hki
        rw [← he]
        exact List.mem_map_of_mem (fun k => if k.id = k₀.id then claimRow now k else k) hk

/-- Writing back a completed held job preserves the invariant and releases
the job. -/
theorem inv_finish {s f : List Job} {j : Job} (code : Option Int) (t : Nat)
    (out err : String) (h : Inv ⟨s, f⟩) (hjf : j ∈ f) :
    Inv ⟨updateJob s (jobFromClose j code t out err), f.erase j⟩ := by
  obtain ⟨h1, h2, h3⟩ := h
  have hustat := jobFromClose_status j code t out err
  have hrow : ∀ k ∈ s, k.id = (jobFromClose j code t out err).id →
      k.status ≠ .pending := by
    intro k hk hki
    rcases h3 j hjf with ⟨m, hm, hmid, hmnp⟩
    have hkm : k = m := id_unique h1 hk hm (by rw [hki]; exact hmid.symm)
    rw [hkm]
    exact hmnp
  refine ⟨?_, ?_, ?_⟩
  · show ((s.map (updateRow (jobFromClose j code t out err))).map Job.id).Nodup
    rw [map_ids_of_preserves (updateRow_id (jobFromClose j code t out err)) s]
    exact h1
  · intro m hm
    rcases List.mem_map.mp hm with ⟨k, hk, hfk⟩
    rw [← hfk]
    unfold updateRow
    by_cases hki : k.id = (jobFromClose j code t out err).id
    · rw [if_pos hki]
      have hknp : k.status ≠ .pending := hrow k hk hki
      have hkstart : k.started_at ≠ none := (h2 k hk).1.mpr hknp
      constructor
      · constructor
        · intro _
          show (jobFromClose j code t out err).status ≠ .pending
          rcases hustat with hc | hc <;> rw [hc] <;>
            exact fun hp => JobStatus.noConfusion hp
        · intro _
          exact hkstart
      · intro _
        exact hustat
    · rw [if_neg hki]
      exact h2 k hk
  · intro j' hj'
    have hj'f : j' ∈ f := List.mem_of_mem_erase hj'
    rcases h3 j' hj'f with ⟨k, hk, hkid, hknp⟩
    refine ⟨updateRow (jobFromClose j code t out err) k,
      List.mem_map_of_mem (updateRow (jobFromClose j code t out err)) hk, ?_, ?_⟩
    · rw [updateRow_id (jobFromClose j code t out err) k]
      exact hkid
    · unfold updateRow
      by_cases hki : k.id = (jobFromClose j code t out err).id
      · rw [if_pos hki]
        intro hp
        have hp' : (jobFromClose j code t out err).status = .pending := hp
        rcases hustat with hc | hc <;> rw [hc] at hp' <;>
          exact JobStatus.noConfusion hp'
      · rw [if_neg hki]
        exact hknp

/-- Every reachable system state satisfies the inductive invariant. -/
theorem reachable_inv {st : SysState} (h : Reachable st) : Inv st := by
  induction h with
  | init => exact inv_init
  | seed h ih => exact inv_seed ih
  | sweep now h ih => exact inv_sweep now ih
  | claim now j s' h heq ih => exact inv_claim ih heq
  | finish j code t out err h hjf ih => exact inv_finish code t out err ih hjf

/-! ### Claims -/

/-- C6: after `sweepStaleJobs` runs at time `now`, every job that was
`running` with `started_at` older than `now` minus the 10-second threshold
is `failed` with `stderr` set to the timeout marker, and every other job is
unchanged (the table keeps its length and order; atomicity holds because the
sweep is a single UPDATE statement, one transition of the model). -/
theorem claim_C6_sweep_marks_stale (now : Nat) (s : List Job) :
    (sweepStaleJobs now s).length = s.length ∧
    ∀ p ∈ s.zip (sweepStaleJobs now s),
      ((p.1.status = .running ∧ ∃ t, p.1.started_at = some t ∧ t + staleThreshold < now) →
        p.2 = { p.1 with status := .failed, stderr := some "Job timed out" }) ∧
      (¬(p.1.status = .running ∧ ∃ t, p.1.started_at = some t ∧ t + staleThreshold < now) →
        p.2 = p.1) := by
  constructor
  · simp [sweepStaleJobs]
  · intro p hp
    have h2 := snd_eq_of_mem_zip_map (sweepRow now) s p hp
    constructor
    · intro hcond
      rw [h2, sweepRow, if_pos ((isStale_iff now p.1).mpr hcond)]
      rfl
    · intro hcond
      rw [h2, sweepRow, if_neg]
      intro hb
      exact hcond ((isStale_iff now p.1).mp hb)

/-- Witness for C6 at the spec's scenario: a job running since time 0 swept
at time 20 comes out `failed` with the timeout marker. -/
theorem claim_C6_witness :
    ((cRunStale, { cRunStale with status := .failed, stderr := some "Job timed out" }) ∈
      [cRunStale].zip (sweepStaleJobs 20 [cRunStale])) ∧
    { cRunStale with status := .failed, stderr := some "Job timed out" } =
      { cRunStale with status := .failed, stderr := some "Job timed out" } :=
  ⟨by decide,
   ((claim_C6_sweep_marks_stale 20 [cRunStale]).2
      (cRunStale, { cRunStale with status := .failed, stderr := some "Job timed out" })
      (by decide)).1 ⟨rfl, 0, rfl, by decide⟩ ▸ rfl⟩

/-- C7: the sweep is idempotent — sweeping twice at the same instant, with
no intervening operation, yields exactly the state of sweeping once (hence
the same set of failed jobs). -/
theorem claim_C7_sweep_idempotent (now : Nat) (s : List Job) :
    sweepStaleJobs now (sweepStaleJobs now s) = sweepStaleJobs now s := by
  induction s with
  | nil => rfl
  | cons a as ih =>
    unfold sweepStaleJobs at ih ⊢
    simp only [List.map_cons]
    rw [ih]
    congr 1
    unfold sweepRow
    by_cases h : isStale now a = true
    · rw [if_pos h, if_neg (by simp [isStale_markSwept])]
    · rw [if_neg h, if_neg h]

/-- C8: seeding is idempotent — `seedJobs` inserts its five demo jobs, all
`pending`, only into an empty table, and on every non-empty table it changes
nothing. -/
theorem claim_C8_seed_idempotent (s : List Job) (h : s ≠ []) :
    seedJobs s = s ∧ seedJobs [] = initialJobs ∧
    ∀ j ∈ initialJobs, j.status = .pending := by
  refine ⟨?_, rfl, by decide⟩
  unfold seedJobs
  rw [if_neg]
  simpa using h

/-- Witness for C8 on a concrete non-empty table. -/
theorem claim_C8_witness :
    seedJobs [cRunStale] = [cRunStale] ∧ seedJobs [] = initialJobs ∧
    ∀ j ∈ initialJobs, j.status = .pending :=
  claim_C8_seed_idempotent [cRunStale] (by decide)

/-- C9: the exit status is 0 on a clean run; each signal yields a distinct,
stable, non-zero status (130 for the interrupt signal SIGINT, 143 for the
termination signal SIGTERM), delivered by resolving the main action the
moment the signal arrives; an unhandled internal error yields the non-zero
status 1. -/
theorem claim_C9_exit_statuses :
    cleanExitStatus = 0 ∧
    signalExitStatus .SIGINT = 130 ∧ signalExitStatus .SIGTERM = 143 ∧
    signalExitStatus .SIGINT ≠ 0 ∧ signalExitStatus .SIGTERM ≠ 0 ∧
    signalExitStatus .SIGINT ≠ signalExitStatus .SIGTERM ∧
    errorExitStatus ≠ 0 ∧
    onSignal .running .SIGINT = .exited 130 ∧
    onSignal .running .SIGTERM = .exited 143 := by
  decide

/-- C10: the runner marks a job `done` exactly when the child's close code
is `0`; every other code — including `null`, reported when the child was
terminated by a signal — yields `failed`, and `finished_at` is stamped in
both cases. -/
theorem claim_C10_close_code (job : Job) (t : Nat) (out err : String) :
    (jobFromClose job none t out err).status = .failed ∧
    (jobFromClose job none t out err).finished_at = some t ∧
    ∀ code : Option Int,
      ((jobFromClose job code t out err).status = .done ↔ code = some 0) ∧
      (jobFromClose job code t out err).finished_at = some t := by
  refine ⟨rfl, rfl, fun code => ⟨?_, rfl⟩⟩
  unfold jobFromClose
  by_cases h : code = some 0 <;> simp [h]

/-- C5 counterexample: writing back a job into an empty table — no row with
that id exists — succeeds silently with the table unchanged; no NotFound
(or any) failure is produced, because the source runs the UPDATE through
`.run` and discards the change count. -/
theorem claim_C5_counterexample :
    updateJobE [] cUpd5 = .ok [] ∧ isErrorOutcome (updateJobE [] cUpd5) = false :=
  ⟨rfl, rfl⟩

/-- C5 amended: `update(job)` atomically writes back `status`,
`finished_at`, `stdout`, `stderr` onto the row with the given id when it
exists (leaving `id`, `command`, `args`, `started_at` untouched and every
other row unchanged), and when no row with that id exists it silently
succeeds and changes nothing — it does not fail with a NotFound
condition. -/
theorem claim_C5_update_semantics (s : List Job) (job : Job) :
    updateJobE s job = .ok (updateJob s job) ∧
    (updateJob s job).length = s.length ∧
    (∀ p ∈ s.zip (updateJob s job),
      (p.1.id = job.id → p.2 = writeBack p.1 job) ∧
      (p.1.id ≠ job.id → p.2 = p.1) ∧
      p.2.id = p.1.id ∧ p.2.started_at = p.1.started_at ∧
      p.2.command = p.1.command ∧ p.2.args = p.1.args) ∧
    ((∀ k ∈ s, k.id ≠ job.id) → updateJob s job = s) := by
  refine ⟨rfl, by simp [updateJob], ?_, ?_⟩
  · intro p hp
    have h2 := snd_eq_of_mem_zip_map (updateRow job) s p hp
    simp only [updateRow] at h2
    refine ⟨?_, ?_, ?_, ?_, ?_, ?_⟩
    · intro h; rw [h2]; exact if_pos h
    · intro h; rw [h2]; exact if_neg h
    all_goals
      rw [h2]
      by_cases h : p.1.id = job.id
      · rw [if_pos h]; rfl
      · rw [if_neg h]
  · intro h
    refine map_eq_self_of_fixes _ s fun k hk => ?_
    simp only [updateRow]
    exact if_neg (h k hk)

/-- Witness for C5 amended: a one-row table whose row carries the job's id
receives exactly the written-back fields. -/
theorem claim_C5_witness :
    ((cRow5, cWritten5) ∈ [cRow5].zip (updateJob [cRow5] cUpd5)) ∧
    cWritten5 = writeBack cRow5 cUpd5 :=
  ⟨by decide,
   ((claim_C5_update_semantics [cRow5] cUpd5).2.2.1
      (cRow5, cWritten5) (by decide)).1 rfl⟩

/-- C3 counterexample: the very first interrupt signal already terminates
the run — `onSignal` moves the live run straight to `exited 130` — and the
shutdown flag the worker loop polls is the constant `false`, so no graceful
drain phase exists and no second signal is needed for termination (the
two-stage handler in the source is commented out). -/
theorem claim_C3_counterexample :
    onSignal .running .SIGINT = .exited 130 ∧ isShuttingDown = false :=
  ⟨rfl, rfl⟩

/-- C3 amended: the first interrupt or termination signal immediately
resolves the main action, ending the run with that signal's non-zero status
(130 for interrupt, 143 for termination) and cancelling in-flight work
(child processes are killed by the spawn action's teardown); the shutdown
flag is constantly `false`, so workers never drain gracefully, and a second
signal has no distinct effect — the run is already exited and its status
does not change. -/
theorem claim_C3_first_signal_exits :
    onSignal .running .SIGINT = .exited (signalExitStatus .SIGINT) ∧
    onSignal .running .SIGTERM = .exited (signalExitStatus .SIGTERM) ∧
    signalExitStatus .SIGINT ≠ 0 ∧ signalExitStatus .SIGTERM ≠ 0 ∧
    (∀ n : Nat, onSignal (.exited n) .SIGINT = .exited n ∧
      onSignal (.exited n) .SIGTERM = .exited n) ∧
    isShuttingDown = false :=
  ⟨rfl, rfl, by decide, by decide, fun _ => ⟨rfl, rfl⟩, rfl⟩

/-- C4 counterexample: a spawn failure resolves no job at all — `spawnJob`
has no handler on the child's `error` event, so the failure is never turned
into a `failed` row with the spawn error in `stderr`; in Node an `error`
event without a listener is an uncaught process-level exception. -/
theorem claim_C4_counterexample :
    spawnJobResolve cJob4 5 (.spawnError "spawn no-such-executable ENOENT") = none ∧
    spawnJobListens .error = false :=
  ⟨rfl, rfl⟩

/-- C4 amended: `spawnJob` listens only on the child's stdout data, stderr
data and close events; a command that cannot be spawned emits `error`,
which has no handler, so no failed job outcome is produced for it (the
claim's recovery path does not exist).  Only a `close` event resolves a
job, `done` exactly on code 0 and `failed` otherwise, with the accumulated
streams stored. -/
theorem claim_C4_spawn_error_unhandled (job : Job) (t : Nat) :
    spawnJobListens .error = false ∧
    spawnJobListens .stdoutData = true ∧
    spawnJobListens .stderrData = true ∧
    spawnJobListens .close = true ∧
    (∀ msg, spawnJobResolve job t (.spawnError msg) = none) ∧
    (∀ code out err, spawnJobResolve job t (.closed code out err) =
        some (jobFromClose job code t out err) ∧
      (jobFromClose job code t out err).stdout = some out ∧
      (jobFromClose job code t out err).stderr = some err) :=
  ⟨rfl, rfl, rfl, rfl, fun _ => rfl, fun _ _ _ => ⟨rfl, rfl, rfl⟩⟩

/-- C1: on a table whose ids are pairwise distinct (the PRIMARY KEY
guarantee) and whose text columns hold no empty strings (`|| null` would
otherwise normalize them), `claimNextJob` returns no row exactly when no
row is pending, a returned no-row leaves the table unchanged, a returned
row is a minimal-id pending row transitioned to `running` and stamped
`started_at = now` with only that row rewritten — the returned value is the
updated row itself — and along any sequence of claims, serialized by the
store's transaction, no two calls hand out the same id.  Concurrent callers
interleave whole transactions, so the sequence quantification covers every
concurrent schedule. -/
theorem claim_C1_exclusive_claim (now : Nat) (s : List Job)
    (hNodup : (s.map Job.id).Nodup)
    (hclean : ∀ k ∈ s, k.stdout ≠ some "" ∧ k.stderr ≠ some "") :
    ((claimNextJob now s).1 = none ↔ ∀ j ∈ s, j.status ≠ .pending) ∧
    ((claimNextJob now s).1 = none → (claimNextJob now s).2 = s) ∧
    (∀ j s', claimNextJob now s = (some j, s') →
      j.status = .running ∧ j.started_at = some now ∧
      (∃ k ∈ s, k.status = .pending ∧ k.id = j.id ∧ j = claimRow now k ∧
        ∀ k' ∈ s, k'.status = .pending → k.id ≤ k'.id) ∧
      s' = (s.map fun k => if k.id = j.id then claimRow now k else k) ∧
      j ∈ s') ∧
    (∀ ts : List Nat, ((claimSeq ts s).1.map Job.id).Nodup) := by
  refine ⟨claimNextJob_fst_none_iff now s, ?_, ?_, fun ts => claimSeq_ids_nodup ts s⟩
  · intro h
    have heq : claimNextJob now s = (none, (claimNextJob now s).2) := by
      rw [← h]
    exact claimNextJob_none_state heq
  · intro j s' heq
    rcases claimNextJob_some_spec hNodup heq with ⟨k₀, hk₀s, hk₀p, hmin, hj, hs'⟩
    have hret : returnedJob (claimRow now k₀) = claimRow now k₀ := by
      unfold returnedJob
      rw [nullIfEmpty_eq_self (x := (claimRow now k₀).stdout) (hclean k₀ hk₀s).1,
          nullIfEmpty_eq_self (x := (claimRow now k₀).stderr) (hclean k₀ hk₀s).2]
    have hj' : j = claimRow now k₀ := by rw [hj, hret]
    have hid : k₀.id = j.id := by rw [hj']; rfl
    refine ⟨by rw [hj']; rfl, by rw [hj']; rfl, ⟨k₀, hk₀s, hk₀p, hid, hj', hmin⟩, ?_, ?_⟩
    · rw [hs', ← hid]
    · rw [hs']
      have : (if k₀.id = k₀.id then claimRow now k₀ else k₀) = j := by
        rw [if_pos rfl, hj']
      rw [← this]
      exact List.mem_map_of_mem (fun k => if k.id = k₀.id then claimRow now k else k) hk₀s

/-- Witness for C1 on a concrete two-row pending table at time 5. -/
theorem claim_C1_witness :
    ((cStoreC1.map Job.id).Nodup) ∧
    (∀ k ∈ cStoreC1, k.stdout ≠ some "" ∧ k.stderr ≠ some "") ∧
    (((claimNextJob 5 cStoreC1).1 = none ↔ ∀ j ∈ cStoreC1, j.status ≠ .pending) ∧
     ((claimNextJob 5 cStoreC1).1 = none → (claimNextJob 5 cStoreC1).2 = cStoreC1) ∧
     (∀ j s', claimNextJob 5 cStoreC1 = (some j, s') →
       j.status = .running ∧ j.started_at = some 5 ∧
       (∃ k ∈ cStoreC1, k.status = .pending ∧ k.id = j.id ∧ j = claimRow 5 k ∧
         ∀ k' ∈ cStoreC1, k'.status = .pending → k.id ≤ k'.id) ∧
       s' = (cStoreC1.map fun k => if k.id = j.id then claimRow 5 k else k) ∧
       j ∈ s') ∧
     (∀ ts : List Nat, ((claimSeq ts cStoreC1).1.map Job.id).Nodup)) :=
  ⟨by decide, by decide, claim_C1_exclusive_claim 5 cStoreC1 (by decide) (by decide)⟩

/-- C2 counterexample: the state reached by seeding the empty table,
claiming job 1 at time 0, and sweeping at time 20 is reachable, and in it
job 1 is `failed` with `finished_at` still NULL — the sweep UPDATE sets
only `status` and `stderr` — so "finished_at is non-null iff status ∈
{done, failed}" is false in a reachable state. -/
theorem claim_C2_counterexample :
    Reachable ⟨c2Store, [c2Claimed]⟩ ∧ c2Bad ∈ c2Store ∧
    c2Bad.status = .failed ∧ c2Bad.finished_at = none ∧
    ¬ (c2Bad.finished_at ≠ none ↔ (c2Bad.status = .done ∨ c2Bad.status = .failed)) := by
  refine ⟨?_, by decide, rfl, rfl, by decide⟩
  have h1 : Reachable (⟨seedJobs [], []⟩ : SysState) := Reachable.seed Reachable.init
  have h2 : Reachable (⟨(claimNextJob 0 (seedJobs [])).2, [c2Claimed]⟩ : SysState) :=
    Reachable.claim 0 c2Claimed (claimNextJob 0 (seedJobs [])).2 h1 (by decide)
  exact Reachable.sweep 20 h2

/-- C2 amended: in every state reachable by the program's store operations
(seed, claim, sweep, and the workers' write-back of completed jobs), every
row satisfies: `started_at` is non-null if and only if status ≠ `pending`,
and a non-null `finished_at` implies status ∈ {done, failed}.  The converse
of the `finished_at` direction does not hold: a job failed by the staleness
sweep keeps `finished_at` NULL. -/
theorem claim_C2_timestamp_invariant {st : SysState} (h : Reachable st) :
    ∀ k ∈ st.store, (k.started_at ≠ none ↔ k.status ≠ .pending) ∧
      (k.finished_at ≠ none → k.status = .done ∨ k.status = .failed) :=
  (reachable_inv h).2.1

/-- Witness for C2 amended at the freshly seeded table's first row. -/
theorem claim_C2_witness :
    (cSeed1.started_at ≠ none ↔ cSeed1.status ≠ .pending) ∧
    (cSeed1.finished_at ≠ none → cSeed1.status = .done ∨ cSeed1.status = .failed) :=
  claim_C2_timestamp_invariant (Reachable.seed Reachable.init) cSeed1 (by decide)

end JobQueue

